import Mathlib

/-!
Verification of the moontechs/proxy container-routing configurator.

Go strings are embedded as `List Char` (the configs and labels involved are
ASCII).  Go `int` is embedded as `Int`.  Fallible Go functions returning
`(value, error)` become `Except` values with structured error payloads.
The file first embeds the source (docker/client.go, nginx/generator.go),
then states and proves the behavioural claims.
-/

/-- Embedded Go string: a list of characters. -/
abbrev Str := List Char

/-- Literal helper turning a Lean string literal into an embedded string. -/
def str (s : String) : Str := s.toList

/-- Whitespace characters trimmed by Go strings.TrimSpace (ASCII subset). -/
def goIsSpace (c : Char) : Bool :=
  c = ' ' || c = '\t' || c = '\n' || c = '\x0b' || c = '\x0c' || c = '\r'

/-- Go strings.TrimSpace: drop whitespace from both ends. -/
def trimSpace (s : Str) : Str :=
  ((s.dropWhile goIsSpace).reverse.dropWhile goIsSpace).reverse

/-- Go strings.Split with a one-character separator.
`splitOnChar c []` is `[[]]`, matching Go `strings.Split("", sep) = [""]`. -/
def splitOnChar (sep : Char) : Str → List Str
  | [] => [[]]
  | c :: rest =>
    match splitOnChar sep rest with
    | [] => if c = sep then [[], []] else [[c]]
    | t :: ts => if c = sep then [] :: t :: ts else (c :: t) :: ts

/-- Go strings.Join / the inverse of splitting: interleave a separator. -/
def joinWithChar (sep : Char) : List Str → Str
  | [] => []
  | [t] => t
  | t :: ts => t ++ sep :: joinWithChar sep ts

/-- Decimal value of a digit run (caller guarantees digits only). -/
def digitsVal (cs : Str) : Nat :=
  cs.foldl (fun acc c => acc * 10 + (c.toNat - 48)) 0

/-- Go strconv.Atoi: optional sign followed by one or more decimal digits.
(Go additionally fails on 64-bit overflow; every claim below routes such
inputs into an error through the port-range check, so the distinction is
unobservable here.) -/
def atoi (s : Str) : Option Int :=
  match s with
  | [] => none
  | '+' :: rest =>
    if rest ≠ [] && rest.all Char.isDigit then some (digitsVal rest) else none
  | '-' :: rest =>
    if rest ≠ [] && rest.all Char.isDigit then some (-(digitsVal rest : Int)) else none
  | _ => if s.all Char.isDigit then some (digitsVal s) else none

/-! ## docker/client.go: data model -/

/-- Transport protocol (docker.Protocol). -/
inductive Protocol where
  | TCP
  | UDP
deriving DecidableEq, Repr

/-- docker.PortMapping. -/
structure PortMapping where
  proxyPort : Int
  containerPort : Int
  protocol : Protocol
deriving DecidableEq, Repr

/-- docker.HTTPMapping. -/
structure HTTPMapping where
  hostnames : List Str
  containerPort : Int
  https : Bool
deriving DecidableEq, Repr

/-- docker.ContainerInfo. -/
structure ContainerInfo where
  name : Str
  id : Str
  ip : Str
  mappings : List PortMapping
  httpMapping : Option HTTPMapping
deriving DecidableEq, Repr

/-- Structured image of the error values produced in docker/client.go. -/
inductive ParseErr where
  | invalidFormat (part : Str)
  | invalidProxyPort (s : Str)
  | invalidContainerPort (s : Str)
  | invalidPort (s : Str)
  | proxyPortOutOfRange (p : Int)
  | containerPortOutOfRange (p : Int)
  | invalidTCPMappings (e : ParseErr)
  | invalidUDPMappings (e : ParseErr)
  | invalidHTTPPort (s : Str)
  | httpPortOutOfRange (p : Int)
deriving DecidableEq, Repr

/-- The two port-specification forms handled inside the loop of
parsePortMappings: `proxyPort:containerPort` when the (already trimmed)
part contains a colon, plain `port` otherwise. -/
def parsePart (part : Str) : Except ParseErr PortMapping :=
  if ':' ∈ part then
    match splitOnChar ':' part with
    | [a, b] =>
      match atoi (trimSpace a) with
      | none => .error (.invalidProxyPort a)
      | some pp =>
        match atoi (trimSpace b) with
        | none => .error (.invalidContainerPort b)
        | some cp => .ok ⟨pp, cp, .TCP⟩
    | _ => .error (.invalidFormat part)
  else
    match atoi part with
    | none => .error (.invalidPort part)
    | some p => .ok ⟨p, p, .TCP⟩

/-- One iteration of the loop body of parsePortMappings plus the tail:
processes the comma-split parts in order, exactly as the Go loop does,
returning the first error (and then no mapping list at all). -/
def parseParts : List Str → Except ParseErr (List PortMapping)
  | [] => .ok []
  | part₀ :: rest =>
    let part := trimSpace part₀
    if part = [] then parseParts rest
    else
      match parsePart part with
      | .error e => .error e
      | .ok m =>
        if m.proxyPort < 1 ∨ m.proxyPort > 65535 then
          .error (.proxyPortOutOfRange m.proxyPort)
        else if m.containerPort < 1 ∨ m.containerPort > 65535 then
          .error (.containerPortOutOfRange m.containerPort)
        else
          match parseParts rest with
          | .error e => .error e
          | .ok ms => .ok (m :: ms)

/-- docker.parsePortMappings: split the label on commas and parse each
port specification (`port` or `proxyPort:containerPort`). -/
def parsePortMappings (s : Str) : Except ParseErr (List PortMapping) :=
  parseParts (splitOnChar ',' s)

/-- Raw container attributes as parseContainer reads them: the first Docker
name, the full id, the primary IP, the IPs of the attached networks, and the
five proxy label values (`""` meaning the label is absent, as a Go map
lookup yields). -/
structure RawContainer where
  names0 : Str
  fullID : Str
  primaryIP : Str
  networkIPs : List Str
  tcpPortsStr : Str
  udpPortsStr : Str
  httpHostStr : Str
  httpPortStr : Str
  httpHTTPSStr : Str
deriving DecidableEq, Repr

/-- IP discovery in parseContainer: the primary address, else the first
non-empty network address, else none. -/
def resolveIP (primary : Str) (networks : List Str) : Str :=
  if primary ≠ [] then primary
  else
    match networks.find? (fun ip => ip ≠ []) with
    | some ip => ip
    | none => []

/-- Go strings.TrimPrefix(s, "/"): drop one leading slash if present. -/
def trimSlashStart (s : Str) : Str :=
  match s with
  | '/' :: rest => rest
  | _ => s

/-- ASCII strings.ToLower on one character. -/
def lowerChar (c : Char) : Char :=
  if 65 ≤ c.toNat ∧ c.toNat ≤ 90 then Char.ofNat (c.toNat + 32) else c

/-- ASCII strings.ToLower. -/
def lowerStr (s : Str) : Str := s.map lowerChar

/-- docker.(*Client).parseContainer, pure core: `.ok none` is the Go
`(nil, nil)` skip (no address / no proxy labels), `.error` the Go parse
error, `.ok (some info)` a resolved routing intent. -/
def parseContainer (c : RawContainer) : Except ParseErr (Option ContainerInfo) :=
  let name := trimSlashStart c.names0
  let id := c.fullID.take 12
  let ip := resolveIP c.primaryIP c.networkIPs
  if ip = [] then .ok none
  else if c.tcpPortsStr = [] ∧ c.udpPortsStr = [] ∧ c.httpHostStr = [] then .ok none
  else
    let tcpRes : Except ParseErr (List PortMapping) :=
      if c.tcpPortsStr = [] then .ok []
      else parsePortMappings c.tcpPortsStr
    match tcpRes with
    | .error e => .error (.invalidTCPMappings e)
    | .ok tcpMs =>
      let udpRes : Except ParseErr (List PortMapping) :=
        if c.udpPortsStr = [] then .ok []
        else parsePortMappings c.udpPortsStr
      match udpRes with
      | .error e => .error (.invalidUDPMappings e)
      | .ok udpMs =>
        let mappings :=
          tcpMs.map (fun m => { m with protocol := Protocol.TCP }) ++
          udpMs.map (fun m => { m with protocol := Protocol.UDP })
        let httpRes : Except ParseErr (Option HTTPMapping) :=
          if c.httpHostStr = [] then .ok none
          else
            let hostnames := (splitOnChar ',' c.httpHostStr).map trimSpace
            let portRes : Except ParseErr Int :=
              if c.httpPortStr = [] then .ok 80
              else
                match atoi (trimSpace c.httpPortStr) with
                | none => .error (.invalidHTTPPort c.httpPortStr)
                | some p =>
                  if p < 1 ∨ p > 65535 then .error (.httpPortOutOfRange p)
                  else .ok p
            match portRes with
            | .error e => .error e
            | .ok port =>
              let https :=
                if c.httpHTTPSStr = [] then false
                else lowerStr (trimSpace c.httpHTTPSStr) = str "true"
              .ok (some ⟨hostnames, port, https⟩)
        match httpRes with
        | .error e => .error e
        | .ok httpMapping => .ok (some ⟨name, id, ip, mappings, httpMapping⟩)

/-- The successful outcome of parseContainer, if any. -/
def okParse (c : RawContainer) : Option ContainerInfo :=
  match parseContainer c with
  | .ok (some info) => some info
  | _ => none

/-- docker.(*Client).ScanContainers loop body: failed or skipped containers
are dropped, the remaining resolved containers are collected in order. -/
def scanContainers : List RawContainer → List ContainerInfo
  | [] => []
  | c :: rest =>
    match parseContainer c with
    | .ok (some info) => info :: scanContainers rest
    | _ => scanContainers rest

/-! ## crypto/sha256 (used by generator.checksum) -/

/-- Truncation to a 32-bit word. -/
def w32 (x : Nat) : Nat := x % 4294967296

/-- 32-bit rotate right. -/
def rotr32 (n x : Nat) : Nat := w32 ((x >>> n) ||| (x <<< (32 - n)))

/-- SHA-256 round constants (FIPS 180-4, in decimal). -/
def K256 : List Nat :=
  [1116352408, 1899447441, 3049323471, 3921009573, 961987163,
   1508970993, 2453635748, 2870763221, 3624381080, 310598401,
   607225278, 1426881987, 1925078388, 2162078206, 2614888103,
   3248222580, 3835390401, 4022224774, 264347078, 604807628,
   770255983, 1249150122, 1555081692, 1996064986, 2554220882,
   2821834349, 2952996808, 3210313671, 3336571891, 3584528711,
   113926993, 338241895, 666307205, 773529912, 1294757372,
   1396182291, 1695183700, 1986661051, 2177026350, 2456956037,
   2730485921, 2820302411, 3259730800, 3345764771, 3516065817,
   3600352804, 4094571909, 275423344, 430227734, 506948616,
   659060556, 883997877, 958139571, 1322822218, 1537002063,
   1747873779, 1955562222, 2024104815, 2227730452, 2361852424,
   2428436474, 2756734187, 3204031479, 3329325298]

/-- SHA-256 initial hash state (FIPS 180-4, in decimal). -/
def H256 : List Nat :=
  [1779033703, 3144134277, 1013904242, 2773480762,
   1359893119, 2600822924, 528734635, 1541459225]

/-- Append the 1-bit, zero padding and 64-bit big-endian length. -/
def padMsg (msg : List Nat) : List Nat :=
  let bitLen := msg.length * 8
  let padZeros := (64 - ((msg.length + 9) % 64)) % 64
  msg ++ 128 :: List.replicate padZeros 0 ++
    (List.range 8).map (fun i => (bitLen >>> (8 * (7 - i))) % 256)

/-- Big-endian bytes to 32-bit words. -/
def bytesToWords : List Nat → List Nat
  | b0 :: b1 :: b2 :: b3 :: rest =>
    (b0 * 16777216 + b1 * 65536 + b2 * 256 + b3) :: bytesToWords rest
  | _ => []

/-- Split a word list into blocks of sixteen words (fuel keeps the recursion
structural so that the kernel can evaluate it). -/
def wordBlocks : Nat → List Nat → List (List Nat)
  | 0, _ => []
  | _, [] => []
  | fuel + 1, l => l.take 16 :: wordBlocks fuel (l.drop 16)

/-- Message-schedule extension: add `n` further words. -/
def extendSchedule : Nat → List Nat → List Nat
  | 0, w => w
  | n + 1, w =>
    let len := w.length
    let s0 :=
      rotr32 7 (w.getD (len - 15) 0) ^^^ rotr32 18 (w.getD (len - 15) 0) ^^^
        (w.getD (len - 15) 0 >>> 3)
    let s1 :=
      rotr32 17 (w.getD (len - 2) 0) ^^^ rotr32 19 (w.getD (len - 2) 0) ^^^
        (w.getD (len - 2) 0 >>> 10)
    extendSchedule n (w ++ [w32 (s1 + w.getD (len - 7) 0 + s0 + w.getD (len - 16) 0)])

/-- One SHA-256 compression round. -/
def sha256Round (st : List Nat) (k : Nat) (wt : Nat) : List Nat :=
  match st with
  | [a, b, c, d, e, f, g, h] =>
    let S1 := rotr32 6 e ^^^ rotr32 11 e ^^^ rotr32 25 e
    let ch := (e &&& f) ^^^ ((e ^^^ 4294967295) &&& g)
    let t1 := w32 (h + S1 + ch + k + wt)
    let S0 := rotr32 2 a ^^^ rotr32 13 a ^^^ rotr32 22 a
    let maj := (a &&& b) ^^^ (a &&& c) ^^^ (b &&& c)
    let t2 := w32 (S0 + maj)
    [w32 (t1 + t2), a, b, c, w32 (d + t1), e, f, g]
  | _ => st

/-- Compress one sixteen-word block into the running state. -/
def processBlock (st : List Nat) (block : List Nat) : List Nat :=
  let w := extendSchedule 48 block
  let out := (K256.zip w).foldl (fun s kw => sha256Round s kw.1 kw.2) st
  (st.zip out).map (fun p => w32 (p.1 + p.2))

/-- SHA-256 digest of a byte list, as eight 32-bit words. -/
def sha256Words (msg : List Nat) : List Nat :=
  let ws := bytesToWords (padMsg msg)
  (wordBlocks ws.length ws).foldl processBlock H256

/-- Lower-case hexadecimal digit. -/
def hexChar (n : Nat) : Char :=
  if n < 10 then Char.ofNat (48 + n) else Char.ofNat (87 + n)

/-- Eight-hex-digit rendering of one 32-bit word. -/
def wordHex (w : Nat) : Str :=
  (List.range 8).map (fun i => hexChar ((w >>> (4 * (7 - i))) % 16))

/-- generator.checksum: hex-encoded SHA-256 of the content bytes (the
generated configurations are ASCII, so the byte sequence is the character
codes). -/
def checksum (content : Str) : Str :=
  ((sha256Words (content.map Char.toNat)).map wordHex).flatten

/-! ## nginx/generator.go: data model -/

/-- nginx.StreamMapping. -/
structure StreamMapping where
  proxyPort : Int
  containerPort : Int
  containerIP : Str
deriving DecidableEq, Repr

/-- nginx.StreamContainer. -/
structure StreamContainer where
  name : Str
  id : Str
  tcpMappings : List StreamMapping
  udpMappings : List StreamMapping
deriving DecidableEq, Repr

/-- nginx.StreamData. -/
structure StreamData where
  timestamp : Str
  containers : List StreamContainer
deriving DecidableEq, Repr

/-- nginx.HTTPServer. -/
structure HTTPServer where
  containerName : Str
  containerID : Str
  upstreamName : Str
  hostname : Str
  containerIP : Str
  containerPort : Int
  https : Bool
deriving DecidableEq, Repr

/-- nginx.HTTPData. -/
structure HTTPData where
  timestamp : Str
  httpServers : List HTTPServer
deriving DecidableEq, Repr

/-- The character replacement of generator.hostnameToUpstream: the regular
expression `[.-]` rewritten to an underscore. -/
def dotDashToUnderscore (c : Char) : Char :=
  if c = '.' ∨ c = '-' then '_' else c

/-- generator.hostnameToUpstream: replace dots and hyphens by underscores,
prepend `http_`, lower-case. -/
def hostnameToUpstream (hostname : Str) : Str :=
  "http_".toList ++ lowerStr (hostname.map dotDashToUnderscore)

/-- generator.buildTemplateData: one pass over the containers filling the
stream and HTTP template data (`now` is the formatted wall-clock timestamp
the Go code stamps into both structures). -/
def buildTemplateData (now : Str) (containers : List ContainerInfo) :
    StreamData × HTTPData :=
  let streamContainers := containers.filterMap (fun c =>
    if c.mappings.length > 0 then
      some { name := c.name
             id := c.id
             tcpMappings :=
               (c.mappings.filter (fun m => m.protocol = Protocol.TCP)).map
                 (fun m => ⟨m.proxyPort, m.containerPort, c.ip⟩)
             udpMappings :=
               (c.mappings.filter (fun m => ¬(m.protocol = Protocol.TCP))).map
                 (fun m => ⟨m.proxyPort, m.containerPort, c.ip⟩) }
    else none)
  let httpServers := containers.flatMap (fun c =>
    match c.httpMapping with
    | some hm =>
      hm.hostnames.map (fun h =>
        { containerName := c.name
          containerID := c.id
          upstreamName := hostnameToUpstream h
          hostname := h
          containerIP := c.ip
          containerPort := hm.containerPort
          https := hm.https })
    | none => [])
  (⟨now, streamContainers⟩, ⟨now, httpServers⟩)

/-- Structured image of the conflict errors of generator.validateConflicts:
the conflicting key, the first claimant recorded in the map, and the
claimant that hit the collision. -/
inductive ConflictError where
  | tcp (port : Int) (existing newName : Str)
  | udp (port : Int) (existing newName : Str)
  | host (hostname : Str) (existing newName : Str)
deriving DecidableEq, Repr

/-- Go map lookup over the association list that embeds it. -/
def lookupKey {κ : Type} [DecidableEq κ] (k : κ) : List (κ × Str) → Option Str
  | [] => none
  | (k', v) :: rest => if k' = k then some v else lookupKey k rest

/-- The claim-space fold of validateConflicts: walk the claims in order,
recording each key with its first claimant; report the first key that is
already recorded, with both claimants. -/
def firstDup {κ : Type} [DecidableEq κ] (seen : List (κ × Str)) :
    List (κ × Str) → Option (κ × Str × Str)
  | [] => none
  | (k, n) :: rest =>
    match lookupKey k seen with
    | some e => some (k, e, n)
    | none => firstDup ((k, n) :: seen) rest

/-- The TCP claim space: proxy ports claimed per container, in the nested
iteration order of validateConflicts. -/
def tcpClaims (sd : StreamData) : List (Int × Str) :=
  sd.containers.flatMap (fun c => c.tcpMappings.map (fun m => (m.proxyPort, c.name)))

/-- The UDP claim space. -/
def udpClaims (sd : StreamData) : List (Int × Str) :=
  sd.containers.flatMap (fun c => c.udpMappings.map (fun m => (m.proxyPort, c.name)))

/-- The hostname claim space of the HTTP servers, in order. -/
def hostClaims (hd : HTTPData) : List (Str × Str) :=
  hd.httpServers.map (fun s => (s.hostname, s.containerName))

/-- The hostnames one resolved container contributes to the HTTP module. -/
def hostnamesOf (c : ContainerInfo) : List Str :=
  match c.httpMapping with
  | some hm => hm.hostnames
  | none => []

/-- generator.validateConflicts: three independent claim spaces checked in
sequence (TCP ports, then UDP ports, then hostnames). -/
def validateConflicts (sd : StreamData) (hd : HTTPData) : Except ConflictError Unit :=
  match firstDup [] (tcpClaims sd) with
  | some (p, e, n) => .error (.tcp p e n)
  | none =>
    match firstDup [] (udpClaims sd) with
    | some (p, e, n) => .error (.udp p e n)
    | none =>
      match firstDup [] (hostClaims hd) with
      | some (h, e, n) => .error (.host h e n)
      | none => .ok ()

/-! ## nginx/generator.go: content-addressed writer over a file-system state -/

/-- State of one path: a readable file, or a file whose read fails with an
error other than not-exist (os.ReadFile succeeding or failing). A path
missing from the state is a not-exist read. -/
inductive FileState where
  | present (content : Str)
  | unreadable
deriving DecidableEq, Repr

/-- The file system visible to the generator: path to file state. -/
abbrev FS := List (Str × FileState)

/-- Read a path (first matching entry). -/
def getFile : FS → Str → Option FileState
  | [], _ => none
  | (q, st) :: rest, p => if q = p then some st else getFile rest p

/-- Delete a path (all entries for it). -/
def removeFile : FS → Str → FS
  | [], _ => []
  | (q, st) :: rest, p =>
    if q = p then removeFile rest p else (q, st) :: removeFile rest p

/-- Create or overwrite a path. -/
def setFile (fs : FS) (p : Str) (st : FileState) : FS :=
  (p, st) :: removeFile fs p

/-- The sibling temporary path `path + ".tmp"` of atomicWrite. -/
def tmpPath (p : Str) : Str := p ++ ".tmp".toList

/-- generator.atomicWrite: write the bytes to the sibling temporary path,
then rename it over the target (both steps always succeed in this state
model; the claims under proof only constrain the read side). -/
def atomicWrite (fs : FS) (p : Str) (data : Str) : FS :=
  let fs1 := setFile fs (tmpPath p) (.present data)
  match getFile fs1 (tmpPath p) with
  | some st => setFile (removeFile fs1 (tmpPath p)) p st
  | none => fs1

/-- The read-side failure of writeIfChanged: an error other than
not-exist while reading the existing file. -/
inductive WriteErr where
  | readFailed
deriving DecidableEq, Repr

/-- generator.writeIfChanged: fingerprint the new bytes, read the old file
(not-exist means an empty baseline), skip the write when the fingerprints
match, otherwise write through the temporary path. Returns the
changed-flag (or the read error) together with the resulting file system. -/
def writeIfChanged (fs : FS) (p : Str) (content : Str) :
    Except WriteErr Bool × FS :=
  let newChecksum := checksum content
  let readRes : Except WriteErr Str :=
    match getFile fs p with
    | some (.present old) => .ok old
    | some .unreadable => .error .readFailed
    | none => .ok []
  match readRes with
  | .error e => (.error e, fs)
  | .ok oldContent =>
    if newChecksum = checksum oldContent then (.ok false, fs)
    else (.ok true, atomicWrite fs p content)

/-- Decimal rendering of an embedded integer. -/
def intStr (i : Int) : Str := (toString i).toList

/-- Modelled from the spec: the template constant `StreamTemplate` that
generator.go executes is not among the provided sources.  Per spec §4.3 the
renderer is a deterministic, order-stable pure transform carrying, for every
stream claim, the proxy port, the protocol and the backend address:port;
per the repository's own regeneration test the rendered bytes do not depend
on the pass timestamp carried in the template data. -/
def renderStreamDoc (containers : List StreamContainer) : Str :=
  "# stream proxy configuration\n".toList ++
  containers.flatMap (fun c =>
    c.tcpMappings.flatMap (fun m =>
      "upstream tcp_".toList ++ intStr m.proxyPort ++ " \x7b server ".toList ++
        m.containerIP ++ ":".toList ++ intStr m.containerPort ++
        "; \x7d\nserver \x7b listen ".toList ++ intStr m.proxyPort ++
        "; proxy_pass tcp_".toList ++ intStr m.proxyPort ++ "; \x7d\n".toList) ++
    c.udpMappings.flatMap (fun m =>
      "upstream udp_".toList ++ intStr m.proxyPort ++ " \x7b server ".toList ++
        m.containerIP ++ ":".toList ++ intStr m.containerPort ++
        "; \x7d\nserver \x7b listen ".toList ++ intStr m.proxyPort ++
        " udp; proxy_pass udp_".toList ++ intStr m.proxyPort ++ "; \x7d\n".toList))

/-- Modelled from the spec: the template constant `HTTPTemplate` executed by
generator.go is not among the provided sources.  Per spec §4.3 the renderer
is a deterministic, order-stable pure transform carrying, for every host
claim, the virtual host name, the backend address:port and the listener
(insecure 80 or secure 443); per the repository's own regeneration test the
rendered bytes do not depend on the pass timestamp. -/
def renderHTTPDoc (servers : List HTTPServer) : Str :=
  "# http proxy configuration\n".toList ++
  servers.flatMap (fun s =>
    "upstream ".toList ++ s.upstreamName ++ " \x7b server ".toList ++
      s.containerIP ++ ":".toList ++ intStr s.containerPort ++
      "; \x7d\nserver \x7b listen ".toList ++
      (if s.https then "443 ssl".toList else "80".toList) ++
      "; server_name ".toList ++ s.hostname ++
      "; proxy_pass http://".toList ++ s.upstreamName ++ "; \x7d\n".toList)

/-- Errors of one generation pass. -/
inductive GenErr where
  | conflict (e : ConflictError)
  | streamWrite (e : WriteErr)
  | httpWrite (e : WriteErr)
deriving DecidableEq, Repr

/-- generator.(*Generator).Generate: build the template data, validate
conflicts (aborting before any write), then render and commit the stream
document and the HTTP document in that order. Returns whether any document
changed, together with the resulting file system. -/
def Generate (streamPath httpPath : Str) (fs : FS) (now : Str)
    (containers : List ContainerInfo) : Except GenErr Bool × FS :=
  let sdhd := buildTemplateData now containers
  match validateConflicts sdhd.1 sdhd.2 with
  | .error e => (.error (.conflict e), fs)
  | .ok _ =>
    match writeIfChanged fs streamPath (renderStreamDoc sdhd.1.containers) with
    | (.error e, fs1) => (.error (.streamWrite e), fs1)
    | (.ok streamChanged, fs1) =>
      match writeIfChanged fs1 httpPath (renderHTTPDoc sdhd.2.httpServers) with
      | (.error e, fs2) => (.error (.httpWrite e), fs2)
      | (.ok httpChanged, fs2) => (.ok (streamChanged || httpChanged), fs2)

/-! ## Spec-side definitions (for the refinement claims) -/

/-- The port-specification token semantics in the words of the spec (§4.4 /
claim C3): a trimmed token `a` maps the proxy port onto itself, a token
`a:b` maps proxy port `a` to container port `b`, whitespace around the
colon is ignored, and more than one colon, a non-numeric port or a port
outside [1,65535] is an error (`none`). -/
def specTokenParse (t : Str) : Option PortMapping :=
  match splitOnChar ':' (trimSpace t) with
  | [a] =>
    match atoi a with
    | some p => if 1 ≤ p ∧ p ≤ 65535 then some ⟨p, p, .TCP⟩ else none
    | none => none
  | [a, b] =>
    match atoi (trimSpace a), atoi (trimSpace b) with
    | some pp, some cp =>
      if 1 ≤ pp ∧ pp ≤ 65535 then
        if 1 ≤ cp ∧ cp ≤ 65535 then some ⟨pp, cp, .TCP⟩ else none
      else none
    | _, _ => none
  | _ => none

/-- ASCII letter (the spec's addressable-identifier letters). -/
def isLetter (c : Char) : Bool :=
  (65 ≤ c.toNat && c.toNat ≤ 90) || (97 ≤ c.toNat && c.toNat ≤ 122)

/-- ASCII digit. -/
def isDigitB (c : Char) : Bool :=
  48 ≤ c.toNat && c.toNat ≤ 57

/-- Lower-case ASCII letter. -/
def isLowerLetter (c : Char) : Bool :=
  97 ≤ c.toNat && c.toNat ≤ 122

/-- The upstream-identifier derivation in the words of the spec (§4.3 /
claim C7): replace every character outside letters and digits with an
underscore and lower-case the result. -/
def specUpstream (hostname : Str) : Str :=
  "http_".toList ++
    lowerStr (hostname.map (fun c => if isLetter c ∨ isDigitB c then c else '_'))

/-- The result value of an Except, forgetting which error occurred. -/
def exceptToOption {ε α : Type} : Except ε α → Option α
  | .ok a => some a
  | .error _ => none

/-- The old-content baseline writeIfChanged compares against: the file's
bytes, the empty sequence for a not-exist read, and `none` for a failing
read. -/
def readBaseline (fs : FS) (p : Str) : Option Str :=
  match getFile fs p with
  | some (.present old) => some old
  | some .unreadable => none
  | none => some []

/-! ## Concrete fixtures used by witnesses and counterexamples -/

/-- A container claiming TCP proxy port 80 once. -/
def webC : ContainerInfo :=
  ⟨"web1".toList, "id1".toList, "172.17.0.2".toList, [⟨80, 8080, .TCP⟩], none⟩

/-- A second container also claiming TCP proxy port 80. -/
def webC2 : ContainerInfo :=
  ⟨"web2".toList, "id2".toList, "172.17.0.3".toList, [⟨80, 3000, .TCP⟩], none⟩

/-- One container claiming TCP proxy port 80 twice by itself. -/
def dupC : ContainerInfo :=
  ⟨"web1".toList, "id1".toList, "172.17.0.2".toList,
   [⟨80, 1000, .TCP⟩, ⟨80, 2000, .TCP⟩], none⟩

/-- A hostname-routed container (two hostnames, one shared with apiC2). -/
def apiC : ContainerInfo :=
  ⟨"c1".toList, "id1".toList, "10.0.0.1".toList, [],
   some ⟨["api.example.com".toList, "www.example.com".toList], 8080, false⟩⟩

/-- A second hostname-routed container sharing exactly `api.example.com`. -/
def apiC2 : ContainerInfo :=
  ⟨"c2".toList, "id2".toList, "10.0.0.2".toList, [],
   some ⟨["api.example.com".toList, "other.test".toList], 3000, false⟩⟩

/-- Hostname differing from caseC2's only in letter case. -/
def caseC : ContainerInfo :=
  ⟨"c1".toList, "id1".toList, "10.0.0.1".toList, [],
   some ⟨["API.example.com".toList], 80, false⟩⟩

/-- Lower-case variant of caseC's hostname, on another container. -/
def caseC2 : ContainerInfo :=
  ⟨"c2".toList, "id2".toList, "10.0.0.2".toList, [],
   some ⟨["api.example.com".toList], 80, false⟩⟩

/-- Raw container whose hostname label is a single comma. -/
def rawComma : RawContainer :=
  ⟨"/c1".toList, "0123456789abcdef".toList, "10.0.0.5".toList, [],
   [], [], ",".toList, [], []⟩

/-- Raw container with no determinable IP address. -/
def rawNoIP : RawContainer :=
  ⟨"/c2".toList, "ff00ff00ff00ff".toList, [], [[], []],
   "80".toList, [], [], [], []⟩

/-- Raw container with no proxy labels. -/
def rawNoLabels : RawContainer :=
  ⟨"/c3".toList, "aaaabbbbccccdddd".toList, "10.0.0.6".toList, [],
   [], [], [], [], []⟩

/-- Raw container with an unparsable TCP ports label. -/
def rawBadTCP : RawContainer :=
  ⟨"/c4".toList, "111122223333".toList, "10.0.0.7".toList, [],
   "80:8080:9090".toList, [], [], [], []⟩

/-- Raw container that resolves successfully. -/
def rawOk : RawContainer :=
  ⟨"/c5".toList, "444455556666".toList, "10.0.0.8".toList, [],
   "80:8080".toList, [], [], [], []⟩

/-- Token list exercising both port-specification forms and whitespace. -/
def toksW : List Str :=
  ["80:8080".toList, " 443 : 8443 ".toList, "53".toList]

/-! ## Lemmas about the claim-space fold -/

/-- A key is absent from the seen-map exactly when no claim entry carries it. -/
theorem lookupKey_eq_none_iff {κ : Type} [DecidableEq κ] (k : κ) (l : List (κ × Str)) :
    lookupKey k l = none ↔ k ∉ l.map Prod.fst := by
  induction l with
  | nil => simp [lookupKey]
  | cons p rest ih =>
    obtain ⟨k', v⟩ := p
    simp only [lookupKey, List.map_cons, List.mem_cons]
    by_cases h : k' = k
    · subst h
      simp
    · have h2 : ¬(k = k') := fun hh => h hh.symm
      simp [h, ih, h2]

/-- The fold reports no duplicate exactly when the claim keys are distinct
and none of them is already in the seen-map. -/
theorem firstDup_eq_none_iff {κ : Type} [DecidableEq κ] :
    ∀ (claims seen : List (κ × Str)),
      firstDup seen claims = none ↔
        ((claims.map Prod.fst).Nodup ∧ ∀ p ∈ claims, lookupKey p.1 seen = none) := by
  intro claims
  induction claims with
  | nil =>
    intro seen
    simp [firstDup]
  | cons p rest ih =>
    intro seen
    obtain ⟨k, n⟩ := p
    simp only [firstDup]
    cases h : lookupKey k seen with
    | some e =>
      constructor
      · intro hfalse
        exact absurd hfalse (by simp)
      · rintro ⟨-, hall⟩
        have hk := hall (k, n) (List.mem_cons_self _ _)
        rw [h] at hk
        exact absurd hk (by simp)
    | none =>
      rw [ih]
      simp only [List.map_cons, List.nodup_cons, List.mem_cons, List.mem_map]
      constructor
      · rintro ⟨hnd, hall⟩
        refine ⟨⟨?_, hnd⟩, ?_⟩
        · rintro ⟨q, hq, hqk⟩
          have hz := hall q hq
          simp [lookupKey, hqk] at hz
        · rintro q (rfl | hq)
          · exact h
          · have hz := hall q hq
            simp only [lookupKey] at hz
            by_cases hkq : k = q.1
            · simp [hkq] at hz
            · simpa [hkq] using hz
      · rintro ⟨⟨hknotin, hnd⟩, hall⟩
        refine ⟨hnd, ?_⟩
        intro q hq
        have hz := hall q (Or.inr hq)
        have hkq : ¬(k = q.1) := fun hh => hknotin ⟨q, hq, hh.symm⟩
        simp [lookupKey, hkq, hz]

/-- Starting from an empty seen-map, the fold reports no duplicate exactly
when the claimed keys are pairwise distinct. -/
theorem firstDup_nil_eq_none_iff {κ : Type} [DecidableEq κ] (claims : List (κ × Str)) :
    firstDup [] claims = none ↔ (claims.map Prod.fst).Nodup := by
  rw [firstDup_eq_none_iff]
  simp [lookupKey]

/-- Claim C1 (amended): conflict validation succeeds exactly when no TCP
proxy port, no UDP proxy port and no hostname is claimed twice — where the
two claims may come from two distinct containers or from one container
claiming the key twice; the TCP, UDP and hostname claim spaces are
independent, so cross-protocol and stream-versus-hostname claims of the
same numeric port never conflict. -/
theorem validateConflicts_ok_iff (sd : StreamData) (hd : HTTPData) :
    validateConflicts sd hd = .ok () ↔
      ((tcpClaims sd).map Prod.fst).Nodup ∧
        ((udpClaims sd).map Prod.fst).Nodup ∧
          ((hostClaims hd).map Prod.fst).Nodup := by
  unfold validateConflicts
  cases htcp : firstDup [] (tcpClaims sd) with
  | some r =>
    obtain ⟨p, e, n⟩ := r
    constructor
    · intro hfalse
      exact absurd hfalse (by simp)
    · rintro ⟨hnd, -, -⟩
      rw [(firstDup_nil_eq_none_iff _).mpr hnd] at htcp
      exact absurd htcp (by simp)
  | none =>
    have h1 := (firstDup_nil_eq_none_iff (tcpClaims sd)).mp htcp
    cases hudp : firstDup [] (udpClaims sd) with
    | some r =>
      obtain ⟨p, e, n⟩ := r
      constructor
      · intro hfalse
        exact absurd hfalse (by simp)
      · rintro ⟨-, hnd, -⟩
        rw [(firstDup_nil_eq_none_iff _).mpr hnd] at hudp
        exact absurd hudp (by simp)
    | none =>
      have h2 := (firstDup_nil_eq_none_iff (udpClaims sd)).mp hudp
      cases hhost : firstDup [] (hostClaims hd) with
      | some r =>
        obtain ⟨p, e, n⟩ := r
        constructor
        · intro hfalse
          exact absurd hfalse (by simp)
        · rintro ⟨-, -, hnd⟩
          rw [(firstDup_nil_eq_none_iff _).mpr hnd] at hhost
          exact absurd hhost (by simp)
      | none =>
        have h3 := (firstDup_nil_eq_none_iff (hostClaims hd)).mp hhost
        simp [h1, h2, h3]

/-- Witness for validateConflicts_ok_iff: a TCP claim and two hostname
claims with distinct keys validate successfully. -/
theorem validateConflicts_ok_iff_witness :
    validateConflicts (buildTemplateData [] [webC, apiC]).1
        (buildTemplateData [] [webC, apiC]).2 = .ok () :=
  (validateConflicts_ok_iff (buildTemplateData [] [webC, apiC]).1
      (buildTemplateData [] [webC, apiC]).2).mpr (by decide)

/-- Counterexample to claim C1 as stated: a single container claiming TCP
proxy port 80 twice fails conflict validation even though no two distinct
containers claim a common port and no hostname is claimed at all. -/
theorem validateConflicts_fails_within_one_container :
    validateConflicts (buildTemplateData [] [dupC]).1 (buildTemplateData [] [dupC]).2 =
        .error (.tcp 80 "web1".toList "web1".toList)
      ∧ (buildTemplateData [] [dupC]).1.containers.length = 1
      ∧ (buildTemplateData [] [dupC]).2.httpServers = [] :=
  ⟨rfl, rfl, rfl⟩

/-- In a claim list whose entries all carry the same claimant, lookup of any
claimed key returns that claimant. -/
theorem lookupKey_const {κ : Type} [DecidableEq κ] (n : Str) :
    ∀ (l : List (κ × Str)) (k : κ),
      (∀ p ∈ l, p.2 = n) → k ∈ l.map Prod.fst → lookupKey k l = some n := by
  intro l
  induction l with
  | nil => simp
  | cons p rest ih =>
    intro k hval hk
    obtain ⟨k', v⟩ := p
    simp only [lookupKey]
    by_cases h : k' = k
    · rw [if_pos h]
      exact congrArg some (hval (k', v) (List.mem_cons_self _ _))
    · rw [if_neg h]
      apply ih
      · intro q hq
        exact hval q (List.mem_cons_of_mem _ hq)
      · simp only [List.map_cons, List.mem_cons] at hk
        rcases hk with rfl | hk
        · exact absurd rfl h
        · exact hk

/-- Processing a duplicate-free leading claim segment just accumulates it
into the seen-map. -/
theorem firstDup_append_of_none {κ : Type} [DecidableEq κ] :
    ∀ (as bs seen : List (κ × Str)), firstDup seen as = none →
      firstDup seen (as ++ bs) = firstDup (as.reverse ++ seen) bs := by
  intro as
  induction as with
  | nil =>
    intro bs seen _
    simp
  | cons p as' ih =>
    intro bs seen hnone
    obtain ⟨k, n⟩ := p
    simp only [firstDup, List.cons_append] at hnone ⊢
    cases h : lookupKey k seen with
    | some e =>
      rw [h] at hnone
      exact Option.noConfusion hnone
    | none =>
      rw [h] at hnone
      have hnone2 : firstDup ((k, n) :: seen) as' = none := hnone
      show firstDup ((k, n) :: seen) (as' ++ bs) =
        firstDup (((k, n) :: as').reverse ++ seen) bs
      rw [ih bs ((k, n) :: seen) hnone2]
      simp [List.append_assoc]

/-- Walking one container's claims over a seen-map that already holds `h`
(claimed by `na`) and nothing else they claim reports exactly the
collision on `h`, naming both claimants. -/
theorem firstDup_walk {κ : Type} [DecidableEq κ] (h : κ) (na nb : Str) :
    ∀ (bs : List κ) (seen : List (κ × Str)),
      bs.Nodup →
      (∀ x ∈ bs, x ≠ h → lookupKey x seen = none) →
      h ∈ bs →
      lookupKey h seen = some na →
      firstDup seen (bs.map (fun x => (x, nb))) = some (h, na, nb) := by
  intro bs
  induction bs with
  | nil =>
    intro seen _ _ hmem _
    exact absurd hmem (by simp)
  | cons b bs' ih =>
    intro seen hnd hclean hmem hna
    simp only [List.map_cons, firstDup]
    by_cases hb : b = h
    · subst hb
      rw [hna]
    · have hlb : lookupKey b seen = none :=
        hclean b (List.mem_cons_self _ _) hb
      rw [hlb]
      have hbnotin : b ∉ bs' := (List.nodup_cons.mp hnd).1
      apply ih
      · exact (List.nodup_cons.mp hnd).2
      · intro x hx hxh
        have hxb : ¬(b = x) := fun hh => hbnotin (hh ▸ hx)
        simp only [lookupKey, if_neg hxb]
        exact hclean x (List.mem_cons_of_mem _ hx) hxh
      · rcases List.mem_cons.mp hmem with rfl | hm
        · exact absurd rfl hb
        · exact hm
      · have hbh : ¬(b = h) := hb
        simp only [lookupKey, if_neg hbh]
        exact hna

/-- The hostname claim keys of a pass are the concatenation of each
container's hostname list, in container order. -/
theorem hostKeys_flatMap (now : Str) (cs : List ContainerInfo) :
    (hostClaims (buildTemplateData now cs).2).map Prod.fst =
      cs.flatMap hostnamesOf := by
  simp only [hostClaims, buildTemplateData, List.map_map, List.map_flatMap]
  congr 1
  funext c
  cases hm : c.httpMapping with
  | none => simp [hostnamesOf, hm]
  | some hmv => simp [hostnamesOf, hm, List.map_map, Function.comp_def]

/-- Claim C2: with the port claim spaces conflict-free, two distinct
containers that both carry one exact hostname (each possibly carrying
other hostnames, distinct within each container and not otherwise shared)
fail validation with an error naming that hostname and both container
names; a single container listing several distinct hostnames validates
successfully; and in an arbitrary container set, two distinct containers
sharing a hostname always fail validation. -/
theorem hostname_conflict_detected :
    (∀ (now : Str) (A B : ContainerInfo) (ma mb : HTTPMapping) (h : Str),
      A.name ≠ B.name →
      A.httpMapping = some ma → B.httpMapping = some mb →
      ma.hostnames.Nodup → mb.hostnames.Nodup →
      h ∈ ma.hostnames → h ∈ mb.hostnames →
      (∀ x ∈ mb.hostnames, x ∈ ma.hostnames → x = h) →
      ((tcpClaims (buildTemplateData now [A, B]).1).map Prod.fst).Nodup →
      ((udpClaims (buildTemplateData now [A, B]).1).map Prod.fst).Nodup →
      validateConflicts (buildTemplateData now [A, B]).1 (buildTemplateData now [A, B]).2 =
        .error (.host h A.name B.name))
    ∧ (∀ (now : Str) (A : ContainerInfo) (ma : HTTPMapping),
      A.httpMapping = some ma → ma.hostnames.Nodup →
      ((tcpClaims (buildTemplateData now [A]).1).map Prod.fst).Nodup →
      ((udpClaims (buildTemplateData now [A]).1).map Prod.fst).Nodup →
      validateConflicts (buildTemplateData now [A]).1 (buildTemplateData now [A]).2 =
        .ok ())
    ∧ (∀ (now : Str) (cs : List ContainerInfo) (A B : ContainerInfo)
        (ma mb : HTTPMapping) (h : Str),
      A ∈ cs → B ∈ cs → A.name ≠ B.name →
      A.httpMapping = some ma → B.httpMapping = some mb →
      h ∈ ma.hostnames → h ∈ mb.hostnames →
      validateConflicts (buildTemplateData now cs).1 (buildTemplateData now cs).2 ≠
        .ok ()) := by
  refine ⟨?_, ?_, ?_⟩
  · intro now A B ma mb h hAB hA hB hmaN hmbN hha hhb honly hTCP hUDP
    have hclaims : hostClaims (buildTemplateData now [A, B]).2 =
        ma.hostnames.map (fun x => (x, A.name)) ++
          mb.hostnames.map (fun x => (x, B.name)) := by
      simp [hostClaims, buildTemplateData, hA, hB, List.map_map, Function.comp_def]
    have hkeysA : ((ma.hostnames.map (fun x => (x, A.name))).map Prod.fst) =
        ma.hostnames := by
      simp [List.map_map, Function.comp_def]
    have hnoneA : firstDup [] (ma.hostnames.map (fun x => (x, A.name))) = none := by
      rw [firstDup_nil_eq_none_iff, hkeysA]
      exact hmaN
    have hhost : firstDup [] (hostClaims (buildTemplateData now [A, B]).2) =
        some (h, A.name, B.name) := by
      rw [hclaims, firstDup_append_of_none _ _ _ hnoneA, List.append_nil]
      apply firstDup_walk h A.name B.name mb.hostnames _ hmbN
      · intro x hx hxh
        rw [lookupKey_eq_none_iff]
        rw [List.map_reverse, hkeysA, List.mem_reverse]
        intro hxa
        exact hxh (honly x hx hxa)
      · exact hhb
      · apply lookupKey_const
        · intro p hp
          rw [List.mem_reverse] at hp
          rcases List.mem_map.mp hp with ⟨x, _, rfl⟩
          rfl
        · rw [List.map_reverse, hkeysA, List.mem_reverse]
          exact hha
    unfold validateConflicts
    rw [(firstDup_nil_eq_none_iff _).mpr hTCP,
      (firstDup_nil_eq_none_iff _).mpr hUDP, hhost]
  · intro now A ma hA hmaN hTCP hUDP
    apply (validateConflicts_ok_iff _ _).mpr
    refine ⟨hTCP, hUDP, ?_⟩
    have hclaims : hostClaims (buildTemplateData now [A]).2 =
        ma.hostnames.map (fun x => (x, A.name)) := by
      simp [hostClaims, buildTemplateData, hA, List.map_map, Function.comp_def]
    rw [hclaims]
    simpa [List.map_map, Function.comp_def] using hmaN
  · intro now cs A B ma mb h hAin hBin hname hmA hmB hha hhb hval
    have hnd := ((validateConflicts_ok_iff _ _).mp hval).2.2
    rw [hostKeys_flatMap] at hnd
    have hAB : A ≠ B := fun hh => hname (congrArg ContainerInfo.name hh)
    obtain ⟨u, v, rfl⟩ := List.append_of_mem hAin
    rw [List.flatMap_append, List.flatMap_cons] at hnd
    have hhA : h ∈ hostnamesOf A := by
      simp only [hostnamesOf, hmA]
      exact hha
    have hhB : h ∈ hostnamesOf B := by
      simp only [hostnamesOf, hmB]
      exact hhb
    have hBuv : B ∈ u ∨ B ∈ v := by
      rcases List.mem_append.mp hBin with hB | hB
      · exact Or.inl hB
      · rcases List.mem_cons.mp hB with hB | hB
        · exact absurd hB.symm hAB
        · exact Or.inr hB
    rcases hBuv with hB | hB
    · have hdisj := List.disjoint_of_nodup_append hnd
      exact hdisj (List.mem_flatMap.mpr ⟨B, hB, hhB⟩)
        (List.mem_append.mpr (Or.inl hhA))
    · have hnd2 := hnd.of_append_right
      have hdisj := List.disjoint_of_nodup_append hnd2
      exact hdisj hhA (List.mem_flatMap.mpr ⟨B, hB, hhB⟩)

/-- Witness for hostname_conflict_detected: apiC and apiC2 share exactly
`api.example.com`, and validation reports it with both names; apiC alone
validates; and the same shared hostname also fails a larger set that
additionally holds a stream container. -/
theorem hostname_conflict_detected_witness :
    (validateConflicts (buildTemplateData [] [apiC, apiC2]).1
        (buildTemplateData [] [apiC, apiC2]).2 =
      .error (.host "api.example.com".toList "c1".toList "c2".toList))
    ∧ validateConflicts (buildTemplateData [] [apiC]).1
        (buildTemplateData [] [apiC]).2 = .ok ()
    ∧ validateConflicts (buildTemplateData [] [webC, apiC, apiC2]).1
        (buildTemplateData [] [webC, apiC, apiC2]).2 ≠ .ok () :=
  ⟨hostname_conflict_detected.1 [] apiC apiC2
      ⟨["api.example.com".toList, "www.example.com".toList], 8080, false⟩
      ⟨["api.example.com".toList, "other.test".toList], 3000, false⟩
      "api.example.com".toList (by decide) rfl rfl (by decide) (by decide)
      (by decide) (by decide) (by decide) (by decide) (by decide),
    hostname_conflict_detected.2.1 [] apiC
      ⟨["api.example.com".toList, "www.example.com".toList], 8080, false⟩
      rfl (by decide) (by decide) (by decide),
    hostname_conflict_detected.2.2 [] [webC, apiC, apiC2] apiC apiC2
      ⟨["api.example.com".toList, "www.example.com".toList], 8080, false⟩
      ⟨["api.example.com".toList, "other.test".toList], 3000, false⟩
      "api.example.com".toList (by decide) (by decide) (by decide) rfl rfl
      (by decide) (by decide)⟩

/-! ## Lemmas about splitting and joining -/

/-- Splitting never yields an empty token list. -/
theorem splitOnChar_ne_nil (sep : Char) : ∀ s : Str, splitOnChar sep s ≠ [] := by
  intro s
  induction s with
  | nil => simp [splitOnChar]
  | cons c rest ih =>
    simp only [splitOnChar]
    cases h : splitOnChar sep rest with
    | nil => exact absurd h ih
    | cons t ts =>
      by_cases hc : c = sep <;> simp [hc]

/-- A string free of the separator splits into one token. -/
theorem splitOnChar_of_not_mem (sep : Char) :
    ∀ s : Str, sep ∉ s → splitOnChar sep s = [s] := by
  intro s
  induction s with
  | nil => intro _; rfl
  | cons c rest ih =>
    intro hmem
    have hc : ¬(c = sep) := fun hh => hmem (hh ▸ List.mem_cons_self _ _)
    have hrest : sep ∉ rest := fun hh => hmem (List.mem_cons_of_mem _ hh)
    simp only [splitOnChar, ih hrest]
    simp [hc]

/-- A leading separator contributes a leading empty token. -/
theorem splitOnChar_cons_sep (sep : Char) (r : Str) :
    splitOnChar sep (sep :: r) = [] :: splitOnChar sep r := by
  simp only [splitOnChar]
  cases h : splitOnChar sep r with
  | nil => exact absurd h (splitOnChar_ne_nil sep r)
  | cons t ts => simp

/-- Splitting distributes over a separator that follows a separator-free
token. -/
theorem splitOnChar_append_sep (sep : Char) :
    ∀ (t r : Str), sep ∉ t →
      splitOnChar sep (t ++ sep :: r) = t :: splitOnChar sep r := by
  intro t
  induction t with
  | nil =>
    intro r _
    simpa using splitOnChar_cons_sep sep r
  | cons c t' ih =>
    intro r hmem
    have hc : ¬(c = sep) := fun hh => hmem (hh ▸ List.mem_cons_self _ _)
    have ht' : sep ∉ t' := fun hh => hmem (List.mem_cons_of_mem _ hh)
    simp only [List.cons_append, splitOnChar, List.append_eq]
    rw [ih r ht']
    simp [hc]

/-- Splitting a separator-joined token list recovers the tokens, provided
no token contains the separator. -/
theorem splitOnChar_joinWithChar (sep : Char) :
    ∀ toks : List Str, toks ≠ [] → (∀ t ∈ toks, sep ∉ t) →
      splitOnChar sep (joinWithChar sep toks) = toks := by
  intro toks
  induction toks with
  | nil => intro h _; exact absurd rfl h
  | cons t rest ih =>
    intro _ hsep
    cases rest with
    | nil =>
      simp only [joinWithChar]
      exact splitOnChar_of_not_mem sep t (hsep t (List.mem_cons_self _ _))
    | cons t2 ts =>
      show splitOnChar sep (t ++ sep :: joinWithChar sep (t2 :: ts)) = t :: t2 :: ts
      rw [splitOnChar_append_sep sep t _ (hsep t (List.mem_cons_self _ _))]
      rw [ih (by simp) (fun x hx => hsep x (List.mem_cons_of_mem _ hx))]

/-- A string containing the separator splits into at least two tokens. -/
theorem splitOnChar_length_ge_two (sep : Char) :
    ∀ s : Str, sep ∈ s → (splitOnChar sep s).length ≥ 2 := by
  intro s
  induction s with
  | nil => simp
  | cons c rest ih =>
    intro hmem
    by_cases hc : c = sep
    · subst hc
      rw [splitOnChar_cons_sep]
      have := splitOnChar_ne_nil c rest
      cases h : splitOnChar c rest with
      | nil => exact absurd h this
      | cons t ts => simp [h]
    · have hrest : sep ∈ rest := by
        rcases List.mem_cons.mp hmem with rfl | hm
        · exact absurd rfl hc
        · exact hm
      have h2 := ih hrest
      simp only [splitOnChar]
      cases h : splitOnChar sep rest with
      | nil => exact absurd h (splitOnChar_ne_nil sep rest)
      | cons t ts =>
        rw [h] at h2
        simp only [List.length_cons] at h2
        simp [hc, Nat.succ_le_succ_iff]
        omega

/-- One loop iteration of parsePortMappings (form dispatch plus range
checks) agrees token-wise with the specification semantics. -/
theorem parsePart_checked_spec (t : Str) :
    (match parsePart (trimSpace t) with
     | .error _ => none
     | .ok m =>
       if m.proxyPort < 1 ∨ m.proxyPort > 65535 then none
       else if m.containerPort < 1 ∨ m.containerPort > 65535 then none
       else some m) = specTokenParse t := by
  unfold parsePart specTokenParse
  by_cases hc : ':' ∈ trimSpace t
  · rw [if_pos hc]
    have hlen := splitOnChar_length_ge_two ':' (trimSpace t) hc
    cases hsplit : splitOnChar ':' (trimSpace t) with
    | nil => exact absurd hsplit (splitOnChar_ne_nil _ _)
    | cons a as =>
      cases as with
      | nil =>
        rw [hsplit] at hlen
        simp at hlen
      | cons b bs =>
        cases bs with
        | nil =>
          show (match (match atoi (trimSpace a) with
              | none => Except.error (ParseErr.invalidProxyPort a)
              | some pp =>
                match atoi (trimSpace b) with
                | none => Except.error (ParseErr.invalidContainerPort b)
                | some cp => Except.ok (⟨pp, cp, .TCP⟩ : PortMapping)) with
            | .error _ => none
            | .ok m =>
              if m.proxyPort < 1 ∨ m.proxyPort > 65535 then none
              else if m.containerPort < 1 ∨ m.containerPort > 65535 then none
              else some m) =
            (match atoi (trimSpace a), atoi (trimSpace b) with
             | some pp, some cp =>
               if 1 ≤ pp ∧ pp ≤ 65535 then
                 if 1 ≤ cp ∧ cp ≤ 65535 then
                   some (⟨pp, cp, .TCP⟩ : PortMapping)
                 else none
               else none
             | _, _ => none)
          cases h1 : atoi (trimSpace a) with
          | none => rfl
          | some pp =>
            cases h2 : atoi (trimSpace b) with
            | none => rfl
            | some cp =>
              by_cases hp : 1 ≤ pp ∧ pp ≤ 65535
              · have hp2 : ¬(pp < 1 ∨ pp > 65535) := by omega
                by_cases hq : 1 ≤ cp ∧ cp ≤ 65535
                · have hq2 : ¬(cp < 1 ∨ cp > 65535) := by omega
                  simp [hp, hq, hp2, hq2]
                · have hq2 : cp < 1 ∨ cp > 65535 := by omega
                  simp [hp, hq, hp2, hq2]
              · have hp2 : pp < 1 ∨ pp > 65535 := by omega
                simp [hp, hp2]
        | cons c cs => rfl
  · rw [if_neg hc]
    rw [splitOnChar_of_not_mem ':' (trimSpace t) hc]
    show (match (match atoi (trimSpace t) with
          | none => Except.error (ParseErr.invalidPort (trimSpace t))
          | some p => Except.ok (⟨p, p, .TCP⟩ : PortMapping)) with
      | .error _ => none
      | .ok m =>
        if m.proxyPort < 1 ∨ m.proxyPort > 65535 then none
        else if m.containerPort < 1 ∨ m.containerPort > 65535 then none
        else some m) =
      (match atoi (trimSpace t) with
       | some p => if 1 ≤ p ∧ p ≤ 65535 then some ⟨p, p, .TCP⟩ else none
       | none => none)
    cases h1 : atoi (trimSpace t) with
    | none => rfl
    | some p =>
      by_cases hp : 1 ≤ p ∧ p ≤ 65535
      · have hp2 : ¬(p < 1 ∨ p > 65535) := by omega
        simp [hp, hp2]
      · have hp2 : p < 1 ∨ p > 65535 := by omega
        simp [hp, hp2]

/-- The whole parsePortMappings loop agrees with the token-wise
specification semantics (on tokens that are non-empty after trimming),
yielding no partial list on error. -/
theorem parseParts_spec :
    ∀ toks : List Str, (∀ t ∈ toks, trimSpace t ≠ []) →
      exceptToOption (parseParts toks) = toks.mapM specTokenParse := by
  intro toks
  induction toks with
  | nil => intro _; rfl
  | cons t rest ih =>
    intro hall
    have ht : trimSpace t ≠ [] := hall t (List.mem_cons_self _ _)
    have hrest : ∀ x ∈ rest, trimSpace x ≠ [] :=
      fun x hx => hall x (List.mem_cons_of_mem _ hx)
    have H := parsePart_checked_spec t
    simp only [parseParts]
    rw [if_neg ht]
    cases hpp : parsePart (trimSpace t) with
    | error e =>
      rw [hpp] at H
      simp only [List.mapM_cons, ← H]
      rfl
    | ok m =>
      rw [hpp] at H
      have H2 : (if m.proxyPort < 1 ∨ m.proxyPort > 65535 then none
          else if m.containerPort < 1 ∨ m.containerPort > 65535 then none
          else some m) = specTokenParse t := H
      show exceptToOption
          (if m.proxyPort < 1 ∨ m.proxyPort > 65535 then
            Except.error (ParseErr.proxyPortOutOfRange m.proxyPort)
          else if m.containerPort < 1 ∨ m.containerPort > 65535 then
            Except.error (ParseErr.containerPortOutOfRange m.containerPort)
          else
            match parseParts rest with
            | Except.error e => Except.error e
            | Except.ok ms => Except.ok (m :: ms)) =
        List.mapM specTokenParse (t :: rest)
      by_cases h1 : m.proxyPort < 1 ∨ m.proxyPort > 65535
      · rw [if_pos h1] at H2
        simp only [List.mapM_cons, ← H2]
        rw [if_pos h1]
        rfl
      · rw [if_neg h1] at H2
        by_cases h2 : m.containerPort < 1 ∨ m.containerPort > 65535
        · rw [if_pos h2] at H2
          simp only [List.mapM_cons, ← H2]
          rw [if_neg h1, if_pos h2]
          rfl
        · rw [if_neg h2] at H2
          simp only [List.mapM_cons, ← H2]
          rw [if_neg h1, if_neg h2]
          cases hrr : parseParts rest with
          | error e2 =>
            have hr := ih hrest
            rw [hrr] at hr
            simp only [← hr]
            rfl
          | ok ms =>
            have hr := ih hrest
            rw [hrr] at hr
            simp only [← hr]
            rfl

/-- Claim C3: parsing a comma-joined list of port-specification tokens
(each non-empty after trimming, none containing a comma) agrees with the
spec's token semantics — `a` maps the port onto itself, `a:b` maps proxy
port to container port, whitespace around tokens and around the colon is
ignored, and a token with more than one colon, a non-numeric port or a
port outside [1,65535] yields an error with no partial mapping list. -/
theorem parsePortMappings_spec (toks : List Str) (hne : toks ≠ [])
    (hcomma : ∀ t ∈ toks, ',' ∉ t) (hnemp : ∀ t ∈ toks, trimSpace t ≠ []) :
    exceptToOption (parsePortMappings (joinWithChar ',' toks)) =
      toks.mapM specTokenParse := by
  unfold parsePortMappings
  rw [splitOnChar_joinWithChar ',' toks hne hcomma]
  exact parseParts_spec toks hnemp

/-- Witness for parsePortMappings_spec on `80:8080, 443 : 8443 ,53`. -/
theorem parsePortMappings_spec_witness :
    exceptToOption (parsePortMappings (joinWithChar ',' toksW)) =
        toksW.mapM specTokenParse ∧
      toksW.mapM specTokenParse =
        some [⟨80, 8080, .TCP⟩, ⟨443, 8443, .TCP⟩, ⟨53, 53, .TCP⟩] :=
  ⟨parsePortMappings_spec toksW (by decide) (by decide) (by decide), by decide⟩

/-! ## Claim C4: conflicts abort the pass before any write -/

/-- Claim C4: when conflict validation fails, Generate returns the conflict
error and the file system is exactly the input one — neither the stream
document nor the HTTP document is touched. -/
theorem generate_conflict_no_write (sp hp : Str) (fs : FS) (now : Str)
    (cs : List ContainerInfo) (e : ConflictError)
    (h : validateConflicts (buildTemplateData now cs).1 (buildTemplateData now cs).2 =
      .error e) :
    Generate sp hp fs now cs = (.error (.conflict e), fs) := by
  simp only [Generate]
  rw [h]

/-- Witness for generate_conflict_no_write: two containers both claiming
TCP port 80 abort the pass on any file system, leaving it unchanged. -/
theorem generate_conflict_no_write_witness :
    Generate "/etc/s.conf".toList "/etc/h.conf".toList [] [] [webC, webC2] =
      (.error (.conflict (.tcp 80 "web1".toList "web2".toList)), []) :=
  generate_conflict_no_write "/etc/s.conf".toList "/etc/h.conf".toList [] []
    [webC, webC2] (.tcp 80 "web1".toList "web2".toList) rfl

/-! ## Lemmas about the file-system state -/

/-- Reading a freshly set path yields the new state. -/
theorem getFile_setFile_same (fs : FS) (p : Str) (st : FileState) :
    getFile (setFile fs p st) p = some st := by
  simp [getFile, setFile]

/-- A removed path reads as absent. -/
theorem getFile_removeFile_same (fs : FS) (p : Str) :
    getFile (removeFile fs p) p = none := by
  induction fs with
  | nil => rfl
  | cons e rest ih =>
    obtain ⟨q, st⟩ := e
    by_cases h : q = p
    · simpa [removeFile, h] using ih
    · simpa [removeFile, getFile, h] using ih

/-- Removing one path does not affect reads of another. -/
theorem getFile_removeFile_ne (fs : FS) (p q : Str) (h : q ≠ p) :
    getFile (removeFile fs p) q = getFile fs q := by
  induction fs with
  | nil => rfl
  | cons e rest ih =>
    obtain ⟨r, st⟩ := e
    by_cases hr : r = p
    · have hrq : ¬(r = q) := fun hh => h (hh.symm.trans hr)
      simp only [removeFile, getFile, if_pos hr, if_neg hrq]
      exact ih
    · by_cases hrq : r = q
      · simp [removeFile, getFile, hr, hrq, h]
      · simpa [removeFile, getFile, hr, hrq] using ih

/-- Setting one path does not affect reads of another. -/
theorem getFile_setFile_ne (fs : FS) (p q : Str) (st : FileState) (h : q ≠ p) :
    getFile (setFile fs p st) q = getFile fs q := by
  have hp : ¬(p = q) := fun hh => h hh.symm
  simp only [setFile, getFile, if_neg hp]
  exact getFile_removeFile_ne fs p q h

/-- The temporary path is distinct from its target. -/
theorem tmpPath_ne (p : Str) : tmpPath p ≠ p := by
  intro h
  have hlen := congrArg List.length h
  simp [tmpPath] at hlen

/-- atomicWrite in closed form: temporary file written, then renamed over
the target. -/
theorem atomicWrite_eq (fs : FS) (p data : Str) :
    atomicWrite fs p data =
      setFile (removeFile (setFile fs (tmpPath p) (.present data)) (tmpPath p)) p
        (.present data) := by
  simp only [atomicWrite, getFile_setFile_same]

/-- After atomicWrite the target holds exactly the new bytes. -/
theorem getFile_atomicWrite_same (fs : FS) (p data : Str) :
    getFile (atomicWrite fs p data) p = some (.present data) := by
  rw [atomicWrite_eq, getFile_setFile_same]

/-- After atomicWrite the temporary file is gone. -/
theorem getFile_atomicWrite_tmp (fs : FS) (p data : Str) :
    getFile (atomicWrite fs p data) (tmpPath p) = none := by
  rw [atomicWrite_eq, getFile_setFile_ne _ _ _ _ (tmpPath_ne p),
    getFile_removeFile_same]

/-- atomicWrite touches nothing besides the target and its temporary. -/
theorem getFile_atomicWrite_other (fs : FS) (p data q : Str)
    (h1 : q ≠ p) (h2 : q ≠ tmpPath p) :
    getFile (atomicWrite fs p data) q = getFile fs q := by
  rw [atomicWrite_eq, getFile_setFile_ne _ _ _ _ h1,
    getFile_removeFile_ne _ _ _ h2, getFile_setFile_ne _ _ _ _ h2]

/-- writeIfChanged in closed form, given the read baseline. -/
theorem writeIfChanged_eq_of_baseline (fs : FS) (p content old : Str)
    (h : readBaseline fs p = some old) :
    writeIfChanged fs p content =
      if checksum content = checksum old then (.ok false, fs)
      else (.ok true, atomicWrite fs p content) := by
  unfold readBaseline at h
  unfold writeIfChanged
  cases hg : getFile fs p with
  | none =>
    rw [hg] at h
    have : ([] : Str) = old := by injection h
    subst this
    rfl
  | some st =>
    cases st with
    | present o =>
      rw [hg] at h
      have : o = old := by injection h
      subst this
      rfl
    | unreadable =>
      rw [hg] at h
      exact Option.noConfusion h

/-- Claim C5: writeIfChanged treats an absent file as the empty baseline;
equal fingerprints report unchanged with no write; different fingerprints
commit the new bytes through the sibling temporary path (which is gone
afterwards); a read failure other than not-exist fails the pass with the
file system untouched. -/
theorem writeIfChanged_contract (fs : FS) (p content : Str) :
    (getFile fs p = some .unreadable →
      writeIfChanged fs p content = (.error .readFailed, fs))
    ∧ (∀ old : Str,
        getFile fs p = some (.present old) ∨ (getFile fs p = none ∧ old = []) →
        (checksum content = checksum old →
          writeIfChanged fs p content = (.ok false, fs))
        ∧ (checksum content ≠ checksum old →
          writeIfChanged fs p content = (.ok true, atomicWrite fs p content)
          ∧ getFile (atomicWrite fs p content) p = some (.present content)
          ∧ getFile (atomicWrite fs p content) (tmpPath p) = none)) := by
  constructor
  · intro h
    unfold writeIfChanged
    rw [h]
  · intro old hold
    have hb : readBaseline fs p = some old := by
      unfold readBaseline
      rcases hold with h1 | ⟨h1, rfl⟩ <;> rw [h1]
    constructor
    · intro he
      rw [writeIfChanged_eq_of_baseline fs p content old hb, if_pos he]
    · intro he
      refine ⟨?_, getFile_atomicWrite_same fs p content,
        getFile_atomicWrite_tmp fs p content⟩
      rw [writeIfChanged_eq_of_baseline fs p content old hb, if_neg he]

/-- Witness for writeIfChanged_contract: an absent file with new bytes is
committed (changed), and an unreadable file fails the write with the state
untouched. -/
theorem writeIfChanged_contract_witness :
    writeIfChanged ([] : FS) "/etc/p.conf".toList "x".toList =
        (.ok true, atomicWrite [] "/etc/p.conf".toList "x".toList)
      ∧ writeIfChanged [("/etc/p.conf".toList, FileState.unreadable)]
          "/etc/p.conf".toList "x".toList =
        (.error .readFailed, [("/etc/p.conf".toList, FileState.unreadable)]) := by
  constructor
  · exact (((writeIfChanged_contract [] "/etc/p.conf".toList "x".toList).2 []
      (Or.inr ⟨rfl, rfl⟩)).2 (by decide)).1
  · exact (writeIfChanged_contract [("/etc/p.conf".toList, FileState.unreadable)]
      "/etc/p.conf".toList "x".toList).1 rfl

/-- After a successful writeIfChanged, the committed baseline carries the
new fingerprint, and no other path moved (besides the temporary). -/
theorem writeIfChanged_ok_baseline (fs fs1 : FS) (p c : Str) (b : Bool)
    (h : writeIfChanged fs p c = (.ok b, fs1)) :
    (∃ old, readBaseline fs1 p = some old ∧ checksum old = checksum c) ∧
      ∀ q, q ≠ p → q ≠ tmpPath p → getFile fs1 q = getFile fs q := by
  cases hb : readBaseline fs p with
  | none =>
    have hg : getFile fs p = some FileState.unreadable := by
      unfold readBaseline at hb
      cases hgg : getFile fs p with
      | none =>
        rw [hgg] at hb
        exact Option.noConfusion hb
      | some st =>
        cases st with
        | present o =>
          rw [hgg] at hb
          exact Option.noConfusion hb
        | unreadable => rfl
    unfold writeIfChanged at h
    rw [hg] at h
    have h2 : ((Except.error WriteErr.readFailed : Except WriteErr Bool), fs) =
        (.ok b, fs1) := h
    simp at h2
  | some old =>
    rw [writeIfChanged_eq_of_baseline fs p c old hb] at h
    by_cases he : checksum c = checksum old
    · rw [if_pos he] at h
      have hfs : fs = fs1 := congrArg Prod.snd h
      subst hfs
      exact ⟨⟨old, hb, he.symm⟩, fun q _ _ => rfl⟩
    · rw [if_neg he] at h
      have hfs : atomicWrite fs p c = fs1 := congrArg Prod.snd h
      subst hfs
      refine ⟨⟨c, ?_, rfl⟩, ?_⟩
      · unfold readBaseline
        rw [getFile_atomicWrite_same]
      · intro q hq1 hq2
        exact getFile_atomicWrite_other fs p c q hq1 hq2

/-- A write whose baseline already carries the new fingerprint is a no-op. -/
theorem writeIfChanged_noop (fs : FS) (p c old : Str)
    (h : readBaseline fs p = some old) (he : checksum old = checksum c) :
    writeIfChanged fs p c = (.ok false, fs) := by
  rw [writeIfChanged_eq_of_baseline fs p c old h, if_pos he.symm]

/-- Claim C6 (idempotence): a successful generation pass followed by a
second pass over the same container set (any wall-clock timestamps, the
two output paths properly distinct) reports changed=false and leaves the
file system bit-identical. -/
theorem generate_idempotent (sp hp : Str) (fs fs1 : FS) (now1 now2 : Str)
    (cs : List ContainerInfo) (b : Bool)
    (hne : sp ≠ hp) (hnetmp : sp ≠ tmpPath hp)
    (hrun : Generate sp hp fs now1 cs = (.ok b, fs1)) :
    Generate sp hp fs1 now2 cs = (.ok false, fs1) := by
  have hval12 : validateConflicts (buildTemplateData now2 cs).1
        (buildTemplateData now2 cs).2 =
      validateConflicts (buildTemplateData now1 cs).1
        (buildTemplateData now1 cs).2 := rfl
  have hsd12 : (buildTemplateData now2 cs).1.containers =
      (buildTemplateData now1 cs).1.containers := rfl
  have hhd12 : (buildTemplateData now2 cs).2.httpServers =
      (buildTemplateData now1 cs).2.httpServers := rfl
  simp only [Generate] at hrun ⊢
  rw [hval12, hsd12, hhd12]
  cases hv : validateConflicts (buildTemplateData now1 cs).1
      (buildTemplateData now1 cs).2 with
  | error e =>
    rw [hv] at hrun
    exact absurd hrun (by simp)
  | ok u =>
    rw [hv] at hrun
    cases hw1 : writeIfChanged fs sp
        (renderStreamDoc (buildTemplateData now1 cs).1.containers) with
    | mk r1 fsa =>
      rw [hw1] at hrun
      cases r1 with
      | error e =>
        exact absurd hrun (by simp)
      | ok sc =>
        have hrun2 : (match writeIfChanged fsa hp
              (renderHTTPDoc (buildTemplateData now1 cs).2.httpServers) with
            | (Except.error e, fs2) => (Except.error (GenErr.httpWrite e), fs2)
            | (Except.ok httpChanged, fs2) =>
              (Except.ok (sc || httpChanged), fs2)) = (.ok b, fs1) := hrun
        cases hw2 : writeIfChanged fsa hp
            (renderHTTPDoc (buildTemplateData now1 cs).2.httpServers) with
        | mk r2 fsb =>
          rw [hw2] at hrun2
          cases r2 with
          | error e =>
            exact absurd hrun2 (by simp)
          | ok hc =>
            have hrun3 : ((Except.ok (sc || hc) : Except GenErr Bool), fsb) =
                (.ok b, fs1) := hrun2
            have hfs : fsb = fs1 := congrArg Prod.snd hrun3
            subst hfs
            obtain ⟨⟨old1, hb1, hck1⟩, hframe1⟩ :=
              writeIfChanged_ok_baseline fs fsa sp _ sc hw1
            obtain ⟨⟨old2, hb2, hck2⟩, hframe2⟩ :=
              writeIfChanged_ok_baseline fsa fsb hp _ hc hw2
            have hget : getFile fsb sp = getFile fsa sp :=
              hframe2 sp hne hnetmp
            have hbb : readBaseline fsb sp = some old1 := by
              unfold readBaseline
              unfold readBaseline at hb1
              rw [hget]
              exact hb1
            show (match writeIfChanged fsb sp
                (renderStreamDoc (buildTemplateData now1 cs).1.containers) with
              | (Except.error e, fs2) => (Except.error (GenErr.streamWrite e), fs2)
              | (Except.ok streamChanged, fs2) =>
                match writeIfChanged fs2 hp
                    (renderHTTPDoc (buildTemplateData now1 cs).2.httpServers) with
                | (Except.error e, fs3) => (Except.error (GenErr.httpWrite e), fs3)
                | (Except.ok httpChanged, fs3) =>
                  (Except.ok (streamChanged || httpChanged), fs3)) =
              (Except.ok false, fsb)
            rw [writeIfChanged_noop fsb sp _ old1 hbb hck1]
            show (match writeIfChanged fsb hp
                (renderHTTPDoc (buildTemplateData now1 cs).2.httpServers) with
              | (Except.error e, fs3) => (Except.error (GenErr.httpWrite e), fs3)
              | (Except.ok httpChanged, fs3) =>
                (Except.ok (false || httpChanged), fs3)) =
              (Except.ok false, fsb)
            rw [writeIfChanged_noop fsb hp _ old2 hb2 hck2]
            rfl

set_option maxRecDepth 100000 in
/-- Witness for generate_idempotent: one stream container, empty initial
file system, default output paths, different timestamps. -/
theorem generate_idempotent_witness :
    Generate "/etc/nginx/conf.d/proxy.conf".toList
        "/etc/nginx/conf.d/http-proxy.conf".toList
        (Generate "/etc/nginx/conf.d/proxy.conf".toList
          "/etc/nginx/conf.d/http-proxy.conf".toList [] "t1".toList [webC]).2
        "t2".toList [webC] =
      (.ok false,
        (Generate "/etc/nginx/conf.d/proxy.conf".toList
          "/etc/nginx/conf.d/http-proxy.conf".toList [] "t1".toList [webC]).2) :=
  generate_idempotent "/etc/nginx/conf.d/proxy.conf".toList
    "/etc/nginx/conf.d/http-proxy.conf".toList [] _ "t1".toList "t2".toList
    [webC] true (by decide) (by decide) rfl

/-! ## Claim C7: the upstream identifier derivation -/

/-- Counterexample to claim C7 as stated: the identifier mapping rewrites
only dots and hyphens, so distinct hostnames built from letters, digits,
dot and hyphen collide (dot versus hyphen, and case variants), and on
other characters the mapping differs from the spec's
replace-every-non-alphanumeric rule. -/
theorem hostnameToUpstream_collisions :
    hostnameToUpstream "a.b".toList = hostnameToUpstream "a-b".toList
    ∧ "a.b".toList ≠ "a-b".toList
    ∧ hostnameToUpstream "A.b".toList = hostnameToUpstream "a.b".toList
    ∧ "A.b".toList ≠ "a.b".toList
    ∧ hostnameToUpstream "a+b".toList ≠ specUpstream "a+b".toList :=
  ⟨rfl, by decide, rfl, by decide, by decide⟩

/-- Characters that the identifier map leaves alone are exactly the
lower-case letters and digits among the dot-only domain. -/
theorem lowerDot_fix (c : Char) (hc : isLowerLetter c ∨ isDigitB c) :
    lowerChar (dotDashToUnderscore c) = c := by
  have hdot : ¬(c = '.' ∨ c = '-') := by
    rintro (rfl | rfl) <;>
      rcases hc with hc | hc <;> simp [isLowerLetter, isDigitB] at hc
  have hrange : ¬(65 ≤ c.toNat ∧ c.toNat ≤ 90) := by
    rcases hc with hc | hc <;> simp [isLowerLetter, isDigitB] at hc <;> omega
  simp [dotDashToUnderscore, hdot, lowerChar, hrange]

/-- On lower-case letters, digits and the dot, the identifier character
map is injective. -/
theorem lowerDot_inj (a b : Char)
    (ha : isLowerLetter a ∨ isDigitB a ∨ a = '.')
    (hb : isLowerLetter b ∨ isDigitB b ∨ b = '.')
    (heq : lowerChar (dotDashToUnderscore a) = lowerChar (dotDashToUnderscore b)) :
    a = b := by
  have hval : lowerChar (dotDashToUnderscore '.') = '_' := rfl
  have ha2 : (isLowerLetter a ∨ isDigitB a) ∨ a = '.' := by tauto
  have hb2 : (isLowerLetter b ∨ isDigitB b) ∨ b = '.' := by tauto
  rcases ha2 with ha2 | rfl
  · rcases hb2 with hb2 | rfl
    · rw [lowerDot_fix a ha2, lowerDot_fix b hb2] at heq
      exact heq
    · rw [lowerDot_fix a ha2, hval] at heq
      subst heq
      rcases ha2 with h | h <;> simp [isLowerLetter, isDigitB] at h
  · rcases hb2 with hb2 | rfl
    · rw [lowerDot_fix b hb2, hval] at heq
      have hba : b = '_' := heq.symm
      subst hba
      rcases hb2 with h | h <;> simp [isLowerLetter, isDigitB] at h
    · rfl

/-- Mapping the identifier character map over dot-only hostnames is
injective. -/
theorem mapLowerDot_inj : ∀ (l₁ l₂ : List Char),
    (∀ c ∈ l₁, isLowerLetter c ∨ isDigitB c ∨ c = '.') →
    (∀ c ∈ l₂, isLowerLetter c ∨ isDigitB c ∨ c = '.') →
    l₁.map (fun x => lowerChar (dotDashToUnderscore x)) =
      l₂.map (fun x => lowerChar (dotDashToUnderscore x)) → l₁ = l₂ := by
  intro l₁
  induction l₁ with
  | nil =>
    intro l₂ _ _ heq
    cases l₂ with
    | nil => rfl
    | cons b t₂ => exact absurd heq (by simp)
  | cons a t ih =>
    intro l₂ hd1 hd2 heq
    cases l₂ with
    | nil => exact absurd heq (by simp)
    | cons b t₂ =>
      simp only [List.map_cons, List.cons.injEq] at heq
      obtain ⟨hab, ht⟩ := heq
      have hab2 : a = b :=
        lowerDot_inj a b (hd1 a (List.mem_cons_self _ _))
          (hd2 b (List.mem_cons_self _ _)) hab
      subst hab2
      rw [ih t₂ (fun c hc => hd1 c (List.mem_cons_of_mem _ hc))
        (fun c hc => hd2 c (List.mem_cons_of_mem _ hc)) ht]

/-- Claim C7 (amended): on hostnames built from letters, digits, dots and
hyphens, the identifier equals the spec's derivation (replace every
character outside letters and digits with an underscore, then lower-case);
the derivation is not injective on that domain — dot and hyphen collide,
as do case variants — but it is injective on hostnames built only from
lower-case letters, digits and dots. -/
theorem hostnameToUpstream_amended :
    (∀ h : Str, (∀ c ∈ h, isLetter c ∨ isDigitB c ∨ c = '.' ∨ c = '-') →
      hostnameToUpstream h = specUpstream h)
    ∧ (∀ h₁ h₂ : Str,
      (∀ c ∈ h₁, isLowerLetter c ∨ isDigitB c ∨ c = '.') →
      (∀ c ∈ h₂, isLowerLetter c ∨ isDigitB c ∨ c = '.') →
      hostnameToUpstream h₁ = hostnameToUpstream h₂ → h₁ = h₂) := by
  constructor
  · intro h hdom
    unfold hostnameToUpstream specUpstream lowerStr
    rw [List.map_map, List.map_map]
    congr 1
    apply List.map_congr_left
    intro c hc
    simp only [Function.comp_def]
    rcases hdom c hc with hL | hD | rfl | rfl
    · have h1 : ¬(c = '.' ∨ c = '-') := by
        rintro (rfl | rfl) <;> simp [isLetter] at hL
      rw [show dotDashToUnderscore c = c from if_neg h1,
        show (if isLetter c ∨ isDigitB c then c else '_') = c from
          if_pos (Or.inl hL)]
    · have h1 : ¬(c = '.' ∨ c = '-') := by
        rintro (rfl | rfl) <;> simp [isDigitB] at hD
      rw [show dotDashToUnderscore c = c from if_neg h1,
        show (if isLetter c ∨ isDigitB c then c else '_') = c from
          if_pos (Or.inr hD)]
    · rfl
    · rfl
  · intro h₁ h₂ hd1 hd2 heq
    unfold hostnameToUpstream lowerStr at heq
    rw [List.map_map, List.map_map] at heq
    have heq2 : h₁.map (lowerChar ∘ dotDashToUnderscore) =
        h₂.map (lowerChar ∘ dotDashToUnderscore) :=
      List.append_cancel_left heq
    simp only [Function.comp_def] at heq2
    exact mapLowerDot_inj h₁ h₂ hd1 hd2 heq2

/-- Witness for hostnameToUpstream_amended at concrete hostnames. -/
theorem hostnameToUpstream_amended_witness :
    hostnameToUpstream "api-1.example.com".toList =
        specUpstream "api-1.example.com".toList
    ∧ ("api.example.com".toList = "api2.example.com".toList →
        False) := by
  constructor
  · exact hostnameToUpstream_amended.1 "api-1.example.com".toList (by decide)
  · intro hcontra
    exact absurd
      (hostnameToUpstream_amended.2 "api.example.com".toList
        "api2.example.com".toList (by decide) (by decide) (by rw [hcontra]))
      (by decide)

/-! ## Claim C8: hostname label resolution -/

/-- Counterexample to claim C8 as stated: a hostname label consisting of a
single comma resolves successfully to two empty hostname strings — empty
tokens are not dropped and an entirely empty hostname list is not an
error. -/
theorem parseContainer_keeps_empty_hostnames :
    parseContainer rawComma =
      .ok (some ⟨"c1".toList, "0123456789ab".toList, "10.0.0.5".toList, [],
        some ⟨[[], []], 80, false⟩⟩) := rfl

/-- Claim C8 (amended): hostname resolution splits the label on commas and
trims surrounding whitespace from each token, but keeps tokens that are
empty after trimming rather than dropping them, and an entirely empty
result is not an error; the backend port defaults to 80 and the secure
flag to false. -/
theorem parseContainer_hostnames_amended (names0 fullID ip hostStr : Str)
    (hip : ip ≠ []) (hhs : hostStr ≠ []) :
    parseContainer ⟨names0, fullID, ip, [], [], [], hostStr, [], []⟩ =
      .ok (some ⟨trimSlashStart names0, fullID.take 12, ip, [],
        some ⟨(splitOnChar ',' hostStr).map trimSpace, 80, false⟩⟩) := by
  unfold parseContainer
  simp [resolveIP, hip, hhs]

/-- Witness for parseContainer_hostnames_amended: a label with an empty
middle token resolves, keeping the empty hostname. -/
theorem parseContainer_hostnames_amended_witness :
    parseContainer ⟨"/web".toList, "abcdef123456".toList, "10.0.0.9".toList,
        [], [], [], "a.example.com, ,b.example.com".toList, [], []⟩ =
      .ok (some ⟨"web".toList, "abcdef123456".toList, "10.0.0.9".toList, [],
        some ⟨["a.example.com".toList, [], "b.example.com".toList], 80,
          false⟩⟩) :=
  (parseContainer_hostnames_amended "/web".toList "abcdef123456".toList
    "10.0.0.9".toList "a.example.com, ,b.example.com".toList
    (by decide) (by decide)).trans rfl

/-! ## Claim C9: per-container failures are recovered locally -/

/-- Claim C9: the scan keeps exactly the successfully resolved containers,
in order; a container that yields no intent — no determinable address, no
recognized proxy label, or a failing port/hostname label — is excluded
without affecting the rest of the scan, which still succeeds. -/
theorem scanContainers_recovers :
    (∀ cs : List RawContainer, scanContainers cs = cs.filterMap okParse)
    ∧ (∀ (xs ys : List RawContainer) (c : RawContainer), okParse c = none →
        scanContainers (xs ++ c :: ys) = scanContainers (xs ++ ys))
    ∧ (∀ c : RawContainer, resolveIP c.primaryIP c.networkIPs = [] →
        okParse c = none)
    ∧ (∀ c : RawContainer,
        c.tcpPortsStr = [] → c.udpPortsStr = [] → c.httpHostStr = [] →
        okParse c = none)
    ∧ (∀ (c : RawContainer) (e : ParseErr), parseContainer c = .error e →
        okParse c = none) := by
  have hfm : ∀ cs : List RawContainer, scanContainers cs = cs.filterMap okParse := by
    intro cs
    induction cs with
    | nil => rfl
    | cons c rest ih =>
      simp only [scanContainers, List.filterMap_cons]
      cases hp : parseContainer c with
      | error e => simpa [okParse, hp] using ih
      | ok o =>
        cases o with
        | none => simpa [okParse, hp] using ih
        | some info => simpa [okParse, hp] using ih
  refine ⟨hfm, ?_, ?_, ?_, ?_⟩
  · intro xs ys c hnone
    rw [hfm, hfm, List.filterMap_append, List.filterMap_append,
      List.filterMap_cons, hnone]
  · intro c hip
    simp only [okParse, parseContainer, hip]
    rfl
  · intro c h1 h2 h3
    simp only [okParse, parseContainer, h1, h2, h3]
    split_ifs with hA hB
    · rfl
    · rfl
    · exact absurd ⟨trivial, trivial, trivial⟩ hB
  · intro c e hp
    simp only [okParse, hp]

/-- Witness for scanContainers_recovers: a failing container drops out of a
scan without affecting its neighbours, and the three failure shapes each
produce no intent. -/
theorem scanContainers_recovers_witness :
    scanContainers ([rawOk] ++ rawBadTCP :: []) = scanContainers ([rawOk] ++ [])
    ∧ okParse rawNoIP = none
    ∧ okParse rawNoLabels = none
    ∧ okParse rawBadTCP = none :=
  ⟨scanContainers_recovers.2.1 [rawOk] [] rawBadTCP rfl,
    scanContainers_recovers.2.2.1 rawNoIP rfl,
    scanContainers_recovers.2.2.2.1 rawNoLabels rfl rfl rfl,
    scanContainers_recovers.2.2.2.2 rawBadTCP
      (.invalidTCPMappings (.invalidFormat "80:8080:9090".toList)) rfl⟩

/-! ## Claim C10: case-sensitive conflict check versus lower-cased ids -/

/-- Claim C10 (implicit): hostname conflict validation compares hostname
strings case-sensitively while the upstream identifier lower-cases them:
two containers whose hostnames differ only in letter case pass conflict
validation, yet both HTTP servers carry the identical upstream
identifier. -/
theorem case_sensitivity_upstream_collision :
    validateConflicts (buildTemplateData [] [caseC, caseC2]).1
        (buildTemplateData [] [caseC, caseC2]).2 = .ok ()
    ∧ (buildTemplateData [] [caseC, caseC2]).2.httpServers.map
        (fun s => s.hostname) =
      ["API.example.com".toList, "api.example.com".toList]
    ∧ "API.example.com".toList ≠ "api.example.com".toList
    ∧ (buildTemplateData [] [caseC, caseC2]).2.httpServers.map
        (fun s => s.upstreamName) =
      ["http_api_example_com".toList, "http_api_example_com".toList]
    ∧ hostnameToUpstream "API.example.com".toList =
      hostnameToUpstream "api.example.com".toList :=
  ⟨rfl, rfl, by decide, rfl, rfl⟩
